import Mathlib

/-!
Verification development for the fycharts chart API
(`src/fycharts/api.py`).

The embedding models:
- the Calendar Engine (`build_dates` with its helpers), with calendar
  dates abstracted as natural numbers (the strictly increasing map
  date-string -> day ordinal makes string parsing/formatting a bijection,
  so comparisons and membership transfer faithfully); the start and end
  query parameters are taken post-parse as `Option Nat` (all claims about
  them hypothesise a well-formed or absent input);
- the Region Validator (`REGION_CODES`, `normalize_regions`);
- the Chart Source Adapter (`ALIAS_TEMPLATES`, `normalize_alias`,
  `parse_spotify_id`, `extract_entries`, `require_token`,
  `fetch_chart_entries`), with the upstream JSON payload modelled as
  nested structures of `Option` fields mirroring the dict lookups, and
  the network call abstracted as a function from (alias, date) to a
  status/body pair;
- the Aggregation loop (`fetch_chart`), with Python exception
  propagation modelled by `Except` (an error raised inside the loop body
  aborts the whole computation, exactly as an uncaught exception does).

HTTPException status codes are modelled by distinct error constructors;
the 400-class date errors form the InvalidDateError family of the spec.
-/

/-- A resolved date slot: either the `"latest"` sentinel string returned by
the latest shorthand, or a concrete valid-date label. -/
inductive DateLabel where
  | latest : DateLabel
  | concrete : Nat → DateLabel
deriving DecidableEq, Repr

/-- Errors raised by `build_dates`. `emptyCalendar` models the Python
IndexError on `valid_date_list[0]` when the calendar source is empty;
the other two are HTTPException(400) = InvalidDateError. -/
inductive DateError where
  | emptyCalendar : DateError
  | invalidStartWeekly : List Nat → DateError
  | endBeforeStart : DateError
deriving DecidableEq, Repr

/-- The 400-class date errors: the spec's InvalidDateError family. -/
def DateError.isInvalidDate : DateError → Bool
  | .invalidStartWeekly _ => true
  | .endBeforeStart => true
  | .emptyCalendar => false

/-- `valid_date_map` keys, sorted: the dict comprehension deduplicates the
raw date list (equal strings parse to the equal datetime key) and
`sorted(valid_date_map.keys())` sorts the keys ascending. -/
def valid_date_list (valid_dates : List Nat) : List Nat :=
  List.insertionSort (· ≤ ·) valid_dates.dedup

/-- Lines 112-130 of api.py: resolve the start of the range. An absent
start defaults to the earliest valid date; a start before the earliest
valid date is clamped up to it; otherwise, for weekly cadence, a start
that is not in the valid-date set raises HTTPException(400) carrying the
first five valid dates at or after it. -/
def resolve_start (vlist : List Nat) (v0 : Nat) (is_weekly : Bool) :
    Option Nat → Except DateError Nat
  | none => .ok v0
  | some s =>
    if s < v0 then .ok v0
    else if is_weekly && !(decide (s ∈ vlist)) then
      .error (.invalidStartWeekly ((vlist.filter (fun d => decide (s ≤ d))).take 5))
    else .ok s

/-- Lines 132-140 of api.py: resolve the end of the range. An absent end
defaults to the latest valid date (both sub-branches of the Python code
return `valid_date_list[-1]`); an end after the latest valid date is
clamped down to it. -/
def resolve_end (vlast : Nat) : Option Nat → Nat
  | none => vlast
  | some e => if vlast < e then vlast else e

/-- `build_dates(start, end, is_weekly, is_viral, latest_only_if_unset)`.
`is_viral` only selects the calendar, so the calendar itself
(`defaultListOfDates`, an external collaborator) is passed in as
`valid_dates`. Returns the `["latest"]` sentinel when both bounds are
absent and the shorthand is enabled, otherwise every valid date in the
resolved inclusive range, ascending. -/
def build_dates (valid_dates : List Nat) (start stop : Option Nat)
    (is_weekly latest_only_if_unset : Bool) : Except DateError (List DateLabel) :=
  let vlist := valid_date_list valid_dates
  if start.isNone && stop.isNone && latest_only_if_unset then
    .ok [DateLabel.latest]
  else
    match vlist with
    | [] => .error DateError.emptyCalendar
    | v0 :: vs =>
      match resolve_start (v0 :: vs) v0 is_weekly start with
      | .error e => .error e
      | .ok start_dt =>
        let end_dt := resolve_end ((v0 :: vs).getLast (List.cons_ne_nil v0 vs)) stop
        if end_dt < start_dt then .error DateError.endBeforeStart
        else .ok (((v0 :: vs).filter
            (fun d => decide (start_dt ≤ d) && decide (d ≤ end_dt))).map DateLabel.concrete)

/-- The fixed closed region set of api.py lines 10-75. -/
def REGION_CODES : List String :=
  ["global", "ad", "ar", "at", "au", "be", "bg", "bo", "br", "ca", "ch",
   "cl", "co", "cr", "cy", "cz", "de", "dk", "do", "ec", "ee", "es", "fi",
   "fr", "gb", "gr", "gt", "hk", "hn", "hu", "id", "ie", "il", "is", "it",
   "jp", "lt", "lu", "lv", "mc", "mt", "mx", "my", "ni", "nl", "no", "nz",
   "pa", "pe", "ph", "pl", "pt", "py", "ro", "se", "sg", "sk", "sv", "th",
   "tr", "tw", "us", "uy", "vn"]

/-- HTTPException(400) "Unsupported region(s): ..." carrying every
offending code in request order. -/
inductive RegionError where
  | invalidRegions : List String → RegionError
deriving DecidableEq, Repr

/-- `normalize_regions` (api.py lines 155-164): absent or empty input
yields `["global"]`; otherwise every code outside `REGION_CODES` is
collected and, if any exist, reported together; valid input is returned
unchanged (original order). -/
def normalize_regions : Option (List String) → Except RegionError (List String)
  | none => .ok ["global"]
  | some rs =>
    if rs.isEmpty then .ok ["global"]
    else
      let invalid := rs.filter (fun r => !(decide (r ∈ REGION_CODES)))
      if invalid.isEmpty then .ok rs
      else .error (.invalidRegions invalid)

/-- Chart family: top200 (mainstream) or viral50. -/
inductive Family where
  | top200 : Family
  | viral50 : Family
deriving DecidableEq, Repr

/-- Chart cadence: daily or weekly. -/
inductive Cadence where
  | daily : Cadence
  | weekly : Cadence
deriving DecidableEq, Repr

/-- A chart key: family plus cadence, the key of `ALIAS_TEMPLATES`. -/
abbrev ChartKey := Family × Cadence

/-- The four alias templates of api.py lines 85-90. -/
def ALIAS_TEMPLATES : ChartKey → String
  | (.top200, .daily) => "regional-{region}-daily"
  | (.top200, .weekly) => "regional-{region}-weekly"
  | (.viral50, .daily) => "viral-{region}-daily"
  | (.viral50, .weekly) => "viral-{region}-weekly"

/-- Python `str.lower()`, character by character (all strings involved are
ASCII, where this agrees with Unicode lowercasing). -/
def str_lower (s : String) : String :=
  ⟨s.data.map Char.toLower⟩

/-- Python `str.format(region=...)` on the alias templates: every
occurrence of the placeholder `\x7bregion\x7d` is replaced by the
substituted value. -/
def formatRegionAux (region : List Char) : List Char → List Char
  | '{' :: 'r' :: 'e' :: 'g' :: 'i' :: 'o' :: 'n' :: '}' :: rest =>
    region ++ formatRegionAux region rest
  | x :: rest => x :: formatRegionAux region rest
  | [] => []

/-- `normalize_alias` (api.py lines 208-210): substitute the lowercased
region into the template. -/
def normalize_alias (chart_key : ChartKey) (region : String) : String :=
  ⟨formatRegionAux (str_lower region).data (ALIAS_TEMPLATES chart_key).data⟩

/-- Python `str.split(sep)` for a single-character separator. -/
def splitOnChar (c : Char) : List Char → List (List Char)
  | [] => [[]]
  | x :: xs =>
    let r := splitOnChar c xs
    if x = c then [] :: r
    else
      match r with
      | [] => [[x]]
      | g :: gs => (x :: g) :: gs

/-- `parse_spotify_id` (api.py lines 167-171): the last colon-delimited
segment of the URI, provided the URI is non-empty, contains a colon, and
splits into at least three parts. -/
def parse_spotify_id : Option String → Option String
  | none => none
  | some uri =>
    if uri = "" || !(uri.data.contains ':') then none
    else
      let parts := (splitOnChar ':' uri.data).map String.mk
      if 3 ≤ parts.length then parts.getLast? else none

/-- Python `a or b` restricted to optional strings: `a` wins when it is a
truthy (present and non-empty) string, otherwise `b`. -/
def pyOr (a b : Option String) : Option String :=
  match a with
  | some s => if s = "" then b else some s
  | none => b

/-- Python truthiness of an optional string. -/
def pyTruthy : Option String → Bool
  | some s => !(s = "")
  | none => false

/-- An artist object inside trackMetadata. -/
structure Artist where
  name : Option String
deriving DecidableEq, Repr

/-- The trackMetadata object of an entry. -/
structure TrackMetadata where
  trackName : Option String
  artists : Option (List Artist)
  trackUri : Option String
deriving DecidableEq, Repr

/-- The rankingMetric object of chartEntryData. -/
structure RankingMetric where
  type : Option String
  value : Option Int
deriving DecidableEq, Repr

/-- The chartEntryData object of an entry. -/
structure ChartEntryData where
  currentRank : Option Nat
  rankingMetric : Option RankingMetric
deriving DecidableEq, Repr

/-- One element of the payload's entries array. -/
structure Entry where
  missingRequiredFields : Bool
  chartEntryData : Option ChartEntryData
  trackMetadata : Option TrackMetadata
deriving DecidableEq, Repr

/-- The dimensions object of the chart metadata. -/
structure Dimensions where
  country : Option String
deriving DecidableEq, Repr

/-- The chartMetadata object of displayChart. -/
structure ChartMetadata where
  dimensions : Option Dimensions
deriving DecidableEq, Repr

/-- The displayChart object of the payload. -/
structure DisplayChart where
  date : Option String
  chartMetadata : Option ChartMetadata
deriving DecidableEq, Repr

/-- A structured-entry upstream payload. -/
structure Payload where
  displayChart : Option DisplayChart
  date : Option String
  entries : List Entry
deriving DecidableEq, Repr

/-- Line 215 of api.py: `display.get("date") or payload.get("date")`. -/
def chart_date_of (payload : Payload) : Option String :=
  pyOr ((payload.displayChart.getD ⟨none, none⟩).date) payload.date

/-- Lines 216-221 of api.py:
`region_override or (dimensions.get("country") or "").lower() or None`. -/
def region_of (payload : Payload) (region_override : Option String) : Option String :=
  if pyTruthy region_override then region_override
  else
    let dims := ((payload.displayChart.getD ⟨none, none⟩).chartMetadata.getD
      ⟨none⟩).dimensions.getD ⟨none⟩
    let t := str_lower (dims.country.getD "")
    if t = "" then none else some t

/-- The normalized output row produced per entry. -/
structure ChartRecord where
  position : Option Nat
  trackName : Option String
  artist : String
  streams : Option Int
  date : Option String
  region : Option String
  spotify_id : Option String
deriving DecidableEq, Repr

/-- The body of the entries loop of `extract_entries` (api.py lines
224-248): skip an entry flagged with missingRequiredFields, otherwise
build a record; the streams count is taken only when the ranking-metric
type is exactly "STREAMS". -/
def extract_entry (chart_date region : Option String) (entry : Entry) :
    Option ChartRecord :=
  if entry.missingRequiredFields then none
  else
    let chart_data := entry.chartEntryData.getD ⟨none, none⟩
    let track_meta := entry.trackMetadata.getD ⟨none, none, none⟩
    let artists := track_meta.artists.getD []
    let artist_names := String.intercalate ", "
      (artists.filterMap fun a =>
        match a.name with
        | some n => if n = "" then none else some n
        | none => none)
    let rank_metric := chart_data.rankingMetric.getD ⟨none, none⟩
    let streams := if rank_metric.type = some "STREAMS" then rank_metric.value else none
    some
      { position := chart_data.currentRank
        trackName := track_meta.trackName
        artist := artist_names
        streams := streams
        date := chart_date
        region := region
        spotify_id := parse_spotify_id track_meta.trackUri }

/-- `extract_entries` (api.py lines 213-249). -/
def extract_entries (payload : Payload) (region_override : Option String) :
    List ChartRecord :=
  payload.entries.filterMap
    (extract_entry (chart_date_of payload) (region_of payload region_override))

/-- Errors surfaced as HTTPException(502) by the fetch pipeline. -/
inductive ApiError where
  | missingToken : ApiError
  | tokenExpired : ApiError
  | upstreamError : Nat → ApiError
  | noData : List String → ApiError
deriving DecidableEq, Repr

/-- An upstream HTTP response: status code and decoded JSON body. -/
structure NetResponse where
  status : Nat
  body : Payload

/-- `require_token` (api.py lines 174-183): the configured token when it
is truthy, otherwise HTTPException(502). -/
def require_token : Option String → Except ApiError String
  | none => .error .missingToken
  | some t => if t = "" then .error .missingToken else .ok t

/-- `fetch_chart_entries` (api.py lines 186-205). The transport call is
abstracted as `net : alias -> date -> NetResponse`. A 401 status is
reported as an expired/invalid token, any other status of at least 400
as a generic upstream error; otherwise the decoded payload is
returned. -/
def fetch_chart_entries (token : Option String) (net : String → String → NetResponse)
    (chart_alias date : String) : Except ApiError Payload :=
  match require_token token with
  | .error e => .error e
  | .ok _ =>
    let r := net chart_alias date
    if r.status = 401 then .error .tokenExpired
    else if 400 ≤ r.status then .error (.upstreamError r.status)
    else .ok r.body

/-- The body of the aggregation loop of `fetch_chart` for one
(date, region) pair: fetch, extract with the requested region as
override, and either record a miss label or append the entries. A fetch
error escapes (the Python code has no try/except around the call). -/
def fetch_pair (token : Option String) (net : String → String → NetResponse)
    (chart_key : ChartKey) (acc : List ChartRecord × List String)
    (date region : String) : Except ApiError (List ChartRecord × List String) :=
  match fetch_chart_entries token net (normalize_alias chart_key region) date with
  | .error e => .error e
  | .ok payload =>
    let entries := extract_entries payload (some region)
    if entries.isEmpty then .ok (acc.1, acc.2 ++ [date ++ "/" ++ region])
    else .ok (acc.1 ++ entries, acc.2)

/-- The inner (region) loop of `fetch_chart` for a fixed date. -/
def fetch_inner (token : Option String) (net : String → String → NetResponse)
    (chart_key : ChartKey) (date : String) :
    List String → List ChartRecord × List String →
    Except ApiError (List ChartRecord × List String)
  | [], acc => .ok acc
  | r :: rs, acc =>
    match fetch_pair token net chart_key acc date r with
    | .error e => .error e
    | .ok acc2 => fetch_inner token net chart_key date rs acc2

/-- The outer (date) loop of `fetch_chart`. -/
def fetch_outer (token : Option String) (net : String → String → NetResponse)
    (chart_key : ChartKey) (regions : List String) :
    List String → List ChartRecord × List String →
    Except ApiError (List ChartRecord × List String)
  | [], acc => .ok acc
  | d :: ds, acc =>
    match fetch_inner token net chart_key d regions acc with
    | .error e => .error e
    | .ok acc2 => fetch_outer token net chart_key regions ds acc2

/-- `fetch_chart` (api.py lines 252-273): run the date x region loop;
if no records were accumulated raise HTTPException(502) carrying the
miss labels, otherwise return the accumulated records. -/
def fetch_chart (token : Option String) (net : String → String → NetResponse)
    (chart_key : ChartKey) (dates regions : List String) :
    Except ApiError (List ChartRecord) :=
  match fetch_outer token net chart_key regions dates ([], []) with
  | .error e => .error e
  | .ok (output, misses) =>
    if output.isEmpty then .error (.noData misses)
    else .ok output


/-- The ranking-metric type of an entry as read by `extract_entries`
(absent chartEntryData or rankingMetric behaves as an empty dict). -/
def ranking_metric_type (e : Entry) : Option String :=
  ((e.chartEntryData.getD ⟨none, none⟩).rankingMetric.getD ⟨none, none⟩).type

/-- The ranking-metric value of an entry as read by `extract_entries`. -/
def ranking_metric_value (e : Entry) : Option Int :=
  ((e.chartEntryData.getD ⟨none, none⟩).rankingMetric.getD ⟨none, none⟩).value

/-- A well-formed upstream entry ranked by streams, used as concrete test
data. -/
def sampleEntry : Entry :=
  { missingRequiredFields := false
    chartEntryData := some
      { currentRank := some 1
        rankingMetric := some { type := some "STREAMS", value := some 100 } }
    trackMetadata := some
      { trackName := some "Song"
        artists := some [⟨some "Artist"⟩]
        trackUri := some "spotify:track:abc" } }

/-- A payload whose chart metadata carries a country (`"BR"`) different
from any requested region, used as concrete test data. -/
def metadataRegionPayload : Payload :=
  { displayChart := some
      { date := some "2020-01-02"
        chartMetadata := some { dimensions := some { country := some "BR" } } }
    date := none
    entries := [sampleEntry] }

/-- The record `extract_entries` produces from `metadataRegionPayload`
when the requested region is `"us"`. -/
def sampleRecordUS : ChartRecord :=
  { position := some 1
    trackName := some "Song"
    artist := "Artist"
    streams := some 100
    date := some "2020-01-02"
    region := some "us"
    spotify_id := some "abc" }

/-- A payload with no entries (an upstream miss). -/
def emptyPayload : Payload :=
  { displayChart := none, date := none, entries := [] }

/-- A network stub: HTTP 500 for date "2020-01-01", a good payload for
every other date. -/
def c1Net : String → String → NetResponse := fun _ date =>
  if date = "2020-01-01" then { status := 500, body := emptyPayload }
  else { status := 200, body := metadataRegionPayload }

/-- A network stub: HTTP 500 only for the request pair
(regional-us-daily, 2020-01-01); every other request succeeds with a
good payload. -/
def c1MidNet : String → String → NetResponse := fun a date =>
  if date = "2020-01-01" ∧ a = "regional-us-daily" then
    { status := 500, body := emptyPayload }
  else { status := 200, body := metadataRegionPayload }

/-- A network stub answering 200 with an entry-free payload everywhere:
every pair is a data-absence miss. -/
def missNet : String → String → NetResponse := fun _ _ =>
  { status := 200, body := emptyPayload }

/-- A network stub answering 200 with a good payload everywhere. -/
def hitNet : String → String → NetResponse := fun _ _ =>
  { status := 200, body := metadataRegionPayload }

/-- An upstream entry whose ranking metric is "SAVES", used as concrete
test data. -/
def savesEntry : Entry :=
  { missingRequiredFields := false
    chartEntryData := some
      { currentRank := some 3
        rankingMetric := some { type := some "SAVES", value := some 77 } }
    trackMetadata := some
      { trackName := some "Tune"
        artists := some [⟨some "Someone"⟩]
        trackUri := some "spotify:track:xyz" } }

/-! ### Helper lemmas about the sorted valid-date list -/

theorem valid_date_list_sorted (vd : List Nat) :
    (valid_date_list vd).Sorted (· ≤ ·) :=
  List.sorted_insertionSort _ _

theorem valid_date_list_nodup (vd : List Nat) : (valid_date_list vd).Nodup :=
  ((List.perm_insertionSort _ _).nodup_iff).mpr (List.nodup_dedup vd)

theorem mem_valid_date_list {vd : List Nat} {a : Nat} :
    a ∈ valid_date_list vd ↔ a ∈ vd := by
  unfold valid_date_list
  rw [List.mem_insertionSort, List.mem_dedup]

theorem sorted_head_le {v0 : Nat} {vs : List Nat} (hs : (v0 :: vs).Sorted (· ≤ ·))
    {x : Nat} (hx : x ∈ v0 :: vs) : v0 ≤ x := by
  rcases List.mem_cons.mp hx with rfl | hx
  · exact le_refl x
  · exact (List.sorted_cons.mp hs).1 x hx

theorem sorted_le_getLast :
    ∀ {l : List Nat}, l.Sorted (· ≤ ·) → ∀ (hne : l ≠ []) {x : Nat}, x ∈ l →
      x ≤ l.getLast hne := by
  intro l
  induction l with
  | nil => intro _ hne; exact absurd rfl hne
  | cons a l ih =>
    intro hs hne x hx
    cases l with
    | nil =>
      rcases List.mem_cons.mp hx with rfl | hx
      · simp [List.getLast]
      · cases hx
    | cons b m =>
      rw [List.getLast_cons (List.cons_ne_nil b m)]
      rcases List.mem_cons.mp hx with rfl | hx
      · exact (List.sorted_cons.mp hs).1 _ (List.getLast_mem (List.cons_ne_nil b m))
      · exact ih (List.sorted_cons.mp hs).2 (List.cons_ne_nil b m) hx

theorem build_dates_cons {vd : List Nat} {v0 : Nat} {vs : List Nat}
    (hv : valid_date_list vd = v0 :: vs) (start stop : Option Nat)
    (w lo : Bool) (hns : (start.isNone && stop.isNone && lo) = false) :
    build_dates vd start stop w lo =
      match resolve_start (v0 :: vs) v0 w start with
      | .error e => .error e
      | .ok start_dt =>
        if resolve_end ((v0 :: vs).getLast (List.cons_ne_nil v0 vs)) stop < start_dt then
          .error DateError.endBeforeStart
        else .ok (((v0 :: vs).filter
            (fun d => decide (start_dt ≤ d) &&
              decide (d ≤ resolve_end ((v0 :: vs).getLast (List.cons_ne_nil v0 vs)) stop))).map
            DateLabel.concrete) := by
  unfold build_dates
  rw [hns, hv]
  rfl

/-! ### Calendar Engine claims -/

/-- C7: when both the start and end inputs are absent and the latest
shorthand is enabled, date-range resolution returns exactly the
single-element `["latest"]` sentinel (one slot meaning "most recent
published date"), not the full historical range. -/
theorem latest_shorthand_single_slot (vd : List Nat) (is_weekly : Bool) :
    build_dates vd none none is_weekly true = .ok [DateLabel.latest] := by
  unfold build_dates
  rfl

/-- C4: a weekly request with an explicit start that is at least the
earliest valid date but not a member of the valid-date set fails with
the InvalidDateError carrying at most 5 suggested valid dates, each at
least the requested start, sorted ascending. -/
theorem weekly_invalid_start_suggestions (vd : List Nat) (s : Nat)
    (stop : Option Nat) (lo : Bool) (v0 : Nat) (vs : List Nat)
    (hv : valid_date_list vd = v0 :: vs) (hge : v0 ≤ s)
    (hnm : s ∉ valid_date_list vd) :
    ∃ sugg, build_dates vd (some s) stop true lo =
        .error (DateError.invalidStartWeekly sugg)
      ∧ sugg.length ≤ 5
      ∧ (∀ d ∈ sugg, s ≤ d)
      ∧ sugg.Sorted (· ≤ ·)
      ∧ ∀ d ∈ sugg, d ∈ vd := by
  have hns : ((some s).isNone && stop.isNone && lo) = false := by simp
  have hmem : s ∉ v0 :: vs := hv ▸ hnm
  have hres : resolve_start (v0 :: vs) v0 true (some s) =
      .error (.invalidStartWeekly (((v0 :: vs).filter (fun d => decide (s ≤ d))).take 5)) := by
    simp only [resolve_start]
    rw [if_neg (by omega), if_pos (by simp [hmem])]
  refine ⟨((v0 :: vs).filter (fun d => decide (s ≤ d))).take 5, ?_, ?_, ?_, ?_, ?_⟩
  · rw [build_dates_cons hv _ _ _ _ hns, hres]
  · exact List.length_take_le 5 _
  · intro d hd
    have hdf : d ∈ (v0 :: vs).filter (fun d => decide (s ≤ d)) :=
      List.mem_of_mem_take hd
    exact of_decide_eq_true (List.mem_filter.mp hdf).2
  · have hsorted : ((v0 :: vs) : List Nat).Sorted (· ≤ ·) := hv ▸ valid_date_list_sorted vd
    exact ((hsorted.filter _).sublist (List.take_sublist _ _))
  · intro d hd
    have : d ∈ v0 :: vs :=
      (List.mem_filter.mp (List.mem_of_mem_take hd)).1
    exact mem_valid_date_list.mp (hv ▸ this)

/-- C4 witness: for the calendar 10, 20, 30 a weekly start of 15 fails
with suggestions drawn from the valid dates at or after 15. -/
theorem weekly_invalid_start_suggestions_witness :
    ∃ sugg, build_dates [10, 20, 30] (some 15) none true false =
        .error (DateError.invalidStartWeekly sugg)
      ∧ sugg.length ≤ 5
      ∧ (∀ d ∈ sugg, 15 ≤ d)
      ∧ sugg.Sorted (· ≤ ·)
      ∧ ∀ d ∈ sugg, d ∈ [10, 20, 30] :=
  weekly_invalid_start_suggestions [10, 20, 30] 15 none false 10 [20, 30]
    (by decide) (by decide) (by decide)

/-- C5: every concrete date returned by a weekly date-range resolution is
a member of the canonical valid-date set (the `"latest"` sentinel slot is
not a date and carries no concrete member). -/
theorem weekly_dates_subset_valid (vd : List Nat) (start stop : Option Nat)
    (lo : Bool) (l : List DateLabel)
    (h : build_dates vd start stop true lo = .ok l) :
    ∀ d : Nat, DateLabel.concrete d ∈ l → d ∈ vd := by
  intro d hd
  cases hcond : (start.isNone && stop.isNone && lo) with
  | true =>
    unfold build_dates at h
    rw [hcond, if_pos rfl] at h
    obtain rfl : [DateLabel.latest] = l := by injection h
    simp at hd
  | false =>
    cases hvl : valid_date_list vd with
    | nil =>
      unfold build_dates at h
      rw [hcond, hvl] at h
      simp at h
    | cons v0 vs =>
      rw [build_dates_cons hvl _ _ _ _ hcond] at h
      cases hr : resolve_start (v0 :: vs) v0 true start with
      | error e => rw [hr] at h; simp at h
      | ok sdt =>
        rw [hr] at h
        simp only at h
        split at h
        · simp at h
        · obtain rfl : _ = l := by injection h
          obtain ⟨x, hx, hxd⟩ := List.mem_map.mp hd
          obtain rfl : x = d := by injection hxd
          exact mem_valid_date_list.mp (hvl ▸ (List.mem_filter.mp hx).1)

/-- C5 witness: resolving the weekly range starting at 20 over the
calendar 10, 20, 30 only yields members of that calendar. -/
theorem weekly_dates_subset_valid_witness : (20 : Nat) ∈ [10, 20, 30] :=
  weekly_dates_subset_valid [10, 20, 30] (some 20) none false
    [DateLabel.concrete 20, DateLabel.concrete 30] (by rfl) 20 (by decide)

/-- C6: boundary handling of date-range resolution over a non-empty
calendar whose sorted valid-date list is `v0 :: vs` with last element
`vlast`. (1) A start before the earliest valid date is clamped, not
rejected: whenever the resolved end does not undercut the earliest valid
date, resolution succeeds and the first element is the earliest valid
date. (2) An end beyond the latest valid date is clamped down: any
successful resolution then ends exactly at the latest valid date.
(3) If the resolved end (after clamping) is strictly before the resolved
start (after clamping), resolution fails with an InvalidDateError. -/
theorem date_range_boundary_clamping (vd : List Nat) (start stop : Option Nat)
    (w lo : Bool) (v0 : Nat) (vs : List Nat) (vlast : Nat)
    (hv : valid_date_list vd = v0 :: vs)
    (hvl : (v0 :: vs).getLast (List.cons_ne_nil v0 vs) = vlast) :
    ((∃ s, start = some s ∧ s < v0) →
      v0 ≤ resolve_end vlast stop →
      ∃ l, build_dates vd start stop w lo = .ok l
        ∧ l.head? = some (DateLabel.concrete v0))
    ∧ ((∃ e, stop = some e ∧ vlast < e) →
      ∀ l, build_dates vd start stop w lo = .ok l →
        l.getLast? = some (DateLabel.concrete vlast))
    ∧ (resolve_end vlast stop <
        (match start with | none => v0 | some s => max v0 s) →
      ∃ err, build_dates vd start stop w lo = .error err
        ∧ err.isInvalidDate = true) := by
  have hsorted : ((v0 :: vs) : List Nat).Sorted (· ≤ ·) :=
    hv ▸ valid_date_list_sorted vd
  have h0last : v0 ≤ vlast := by
    rw [← hvl]
    exact sorted_le_getLast hsorted (List.cons_ne_nil v0 vs)
      (List.mem_cons_self v0 vs)
  refine ⟨?_, ?_, ?_⟩
  · rintro ⟨s, rfl, hs⟩ hend
    have hns : ((some s).isNone && stop.isNone && lo) = false := by simp
    rw [build_dates_cons hv _ _ _ _ hns]
    have hres : resolve_start (v0 :: vs) v0 w (some s) = .ok v0 := by
      simp only [resolve_start]
      rw [if_pos hs]
    simp only [hres, hvl]
    rw [if_neg (Nat.not_lt.mpr hend)]
    refine ⟨_, rfl, ?_⟩
    rw [List.filter_cons_of_pos (by simp [hend])]
    simp
  · rintro ⟨e, rfl, he⟩ l hl
    have hns : (start.isNone && (some e).isNone && lo) = false := by simp
    rw [build_dates_cons hv _ _ _ _ hns] at hl
    cases hr : resolve_start (v0 :: vs) v0 w start with
    | error e2 => rw [hr] at hl; simp at hl
    | ok sdt =>
      have hre : resolve_end vlast (some e) = vlast := by
        simp only [resolve_end]
        rw [if_pos he]
      simp only [hr, hvl, hre] at hl
      split at hl
      · simp at hl
      · rename_i hcmp
        have hsdt : sdt ≤ vlast := Nat.not_lt.mp hcmp
        cases hl
        conv_lhs => rw [← List.dropLast_append_getLast (List.cons_ne_nil v0 vs), hvl]
        rw [List.filter_append, List.map_append]
        rw [show List.filter (fun d => decide (sdt ≤ d) && decide (d ≤ vlast)) [vlast] =
            [vlast] by simp [hsdt]]
        simp
  · intro hlt
    have hns : (start.isNone && stop.isNone && lo) = false := by
      cases hb : (start.isNone && stop.isNone && lo) with
      | false => rfl
      | true =>
        exfalso
        simp only [Bool.and_eq_true, Option.isNone_iff_eq_none] at hb
        obtain ⟨⟨hst, hsp⟩, _⟩ := hb
        subst hst; subst hsp
        have hlt2 : vlast < v0 := hlt
        omega
    rw [build_dates_cons hv _ _ _ _ hns]
    cases start with
    | none =>
      have hlt2 : resolve_end vlast stop < v0 := hlt
      have hres : resolve_start (v0 :: vs) v0 w none = .ok v0 := rfl
      simp only [hres, hvl]
      rw [if_pos hlt2]
      exact ⟨DateError.endBeforeStart, rfl, rfl⟩
    | some s =>
      have hlt2 : resolve_end vlast stop < max v0 s := hlt
      by_cases hsv : s < v0
      · have hres : resolve_start (v0 :: vs) v0 w (some s) = .ok v0 := by
          simp only [resolve_start]
          rw [if_pos hsv]
        have hv0 : resolve_end vlast stop < v0 := by
          rw [max_eq_left (Nat.le_of_lt hsv)] at hlt2
          exact hlt2
        simp only [hres, hvl]
        rw [if_pos hv0]
        exact ⟨DateError.endBeforeStart, rfl, rfl⟩
      · by_cases hw : (w && !(decide (s ∈ v0 :: vs))) = true
        · have hres : resolve_start (v0 :: vs) v0 w (some s) =
              .error (.invalidStartWeekly
                (((v0 :: vs).filter (fun d => decide (s ≤ d))).take 5)) := by
            simp only [resolve_start]
            rw [if_neg hsv, if_pos hw]
          simp only [hres]
          exact ⟨_, rfl, rfl⟩
        · have hres : resolve_start (v0 :: vs) v0 w (some s) = .ok s := by
            simp only [resolve_start]
            rw [if_neg hsv, if_neg hw]
          have hvs : resolve_end vlast stop < s := by
            rw [max_eq_right (Nat.not_lt.mp hsv)] at hlt2
            exact hlt2
          simp only [hres, hvl]
          rw [if_pos hvs]
          exact ⟨DateError.endBeforeStart, rfl, rfl⟩

/-- C6 witness: over the calendar 10, 20, 30 — a start of 5 clamps to 10;
an end of 40 clamps to 30; start 25 with end 15 resolves to an inverted
range and fails with an InvalidDateError. -/
theorem date_range_boundary_clamping_witness :
    (∃ l, build_dates [10, 20, 30] (some 5) none true true = .ok l
      ∧ l.head? = some (DateLabel.concrete 10))
    ∧ ([DateLabel.concrete 10, DateLabel.concrete 20,
        DateLabel.concrete 30].getLast? = some (DateLabel.concrete 30))
    ∧ ∃ err, build_dates [10, 20, 30] (some 25) (some 15) false true = .error err
        ∧ err.isInvalidDate = true := by
  refine ⟨?_, ?_, ?_⟩
  · exact (date_range_boundary_clamping [10, 20, 30] (some 5) none true true
      10 [20, 30] 30 (by decide) (by decide)).1 ⟨5, rfl, by decide⟩ (by decide)
  · exact (date_range_boundary_clamping [10, 20, 30] none (some 40) false true
      10 [20, 30] 30 (by decide) (by decide)).2.1 ⟨40, rfl, by decide⟩ _ (by rfl)
  · exact (date_range_boundary_clamping [10, 20, 30] (some 25) (some 15) false true
      10 [20, 30] 30 (by decide) (by decide)).2.2 (by decide)

/-! ### Region Validator claims -/

/-- Every code of the fixed region set is already lowercase. -/
theorem region_codes_lowercase : ∀ s ∈ REGION_CODES, str_lower s = s := by
  decide

/-- C8: region normalization — absent or empty input yields exactly
`["global"]`; input containing any code outside the fixed region set
fails with an InvalidRegionError whose carried list names exactly the
offending codes (all of them); input consisting entirely of supported
codes is returned unchanged, preserving the original order. -/
theorem normalize_regions_spec (rs : List String) :
    normalize_regions none = .ok ["global"]
    ∧ normalize_regions (some []) = .ok ["global"]
    ∧ ((∃ r ∈ rs, r ∉ REGION_CODES) →
        ∃ inv, normalize_regions (some rs) = .error (.invalidRegions inv)
          ∧ (∀ r ∈ rs, r ∉ REGION_CODES → r ∈ inv)
          ∧ ∀ r ∈ inv, r ∈ rs ∧ r ∉ REGION_CODES)
    ∧ (rs ≠ [] → (∀ r ∈ rs, r ∈ REGION_CODES) →
        normalize_regions (some rs) = .ok rs) := by
  refine ⟨rfl, rfl, ?_, ?_⟩
  · rintro ⟨r, hr, hrc⟩
    have hne : rs ≠ [] := by rintro rfl; cases hr
    refine ⟨rs.filter (fun r => !(decide (r ∈ REGION_CODES))), ?_, ?_, ?_⟩
    · simp only [normalize_regions]
      rw [if_neg (by simp [hne]), if_neg]
      rw [Bool.not_eq_true, List.isEmpty_eq_false]
      intro hnil
      have hcontra := List.filter_eq_nil_iff.mp hnil r hr
      simp [hrc] at hcontra
    · intro x hx hxc
      exact List.mem_filter.mpr ⟨hx, by simp [hxc]⟩
    · intro x hx
      have := List.mem_filter.mp hx
      refine ⟨this.1, ?_⟩
      simpa using this.2
  · intro hne hall
    simp only [normalize_regions]
    rw [if_neg (by simp [hne]), if_pos]
    simp only [List.isEmpty_iff, List.filter_eq_nil_iff]
    intro a ha
    simp [hall a ha]

/-- C8 witness: `["us", "zz"]` fails naming exactly `"zz"`;
`["gb", "us"]` passes through in order; empty and absent inputs default
to `["global"]`. -/
theorem normalize_regions_spec_witness :
    normalize_regions none = .ok ["global"]
    ∧ normalize_regions (some []) = .ok ["global"]
    ∧ (∃ inv, normalize_regions (some ["us", "zz"]) = .error (.invalidRegions inv)
        ∧ (∀ r ∈ ["us", "zz"], r ∉ REGION_CODES → r ∈ inv)
        ∧ ∀ r ∈ inv, r ∈ ["us", "zz"] ∧ r ∉ REGION_CODES)
    ∧ normalize_regions (some ["gb", "us"]) = .ok ["gb", "us"] := by
  refine ⟨(normalize_regions_spec []).1, (normalize_regions_spec []).2.1, ?_, ?_⟩
  · exact (normalize_regions_spec ["us", "zz"]).2.2.1 ⟨"zz", by decide⟩
  · exact (normalize_regions_spec ["gb", "us"]).2.2.2 (by decide) (by decide)

/-- C10: region validation is case-sensitive — a requested code that is
an uppercase or mixed-case variant of a supported code (it differs from
its own lowercasing, whose lowercasing is in the set) is rejected by
`normalize_regions` and named in the error, even though `normalize_alias`
lowercases the region before substituting it into the alias template. -/
theorem region_validation_case_sensitive (rs : List String) (c : String)
    (hmem : c ∈ rs) (_hlow : str_lower c ∈ REGION_CODES)
    (hne : c ≠ str_lower c) :
    ∃ inv, normalize_regions (some rs) = .error (.invalidRegions inv)
      ∧ c ∈ inv := by
  have hnotin : c ∉ REGION_CODES := by
    intro hc
    exact hne (region_codes_lowercase c hc).symm
  have hrs : rs ≠ [] := by rintro rfl; cases hmem
  refine ⟨rs.filter (fun r => !(decide (r ∈ REGION_CODES))), ?_, ?_⟩
  · simp only [normalize_regions]
    rw [if_neg (by simp [hrs]), if_neg]
    rw [Bool.not_eq_true, List.isEmpty_eq_false]
    intro hnil
    have hcontra := List.filter_eq_nil_iff.mp hnil c hmem
    simp [hnotin] at hcontra
  · exact List.mem_filter.mpr ⟨hmem, by simp [hnotin]⟩

/-- C10 witness: `"US"` is rejected and named even though its lowercase
form `"us"` is supported (and the alias built from `"us"` is the
lowercase one). -/
theorem region_validation_case_sensitive_witness :
    ∃ inv, normalize_regions (some ["US"]) = .error (.invalidRegions inv)
      ∧ "US" ∈ inv :=
  region_validation_case_sensitive ["US"] "US" (by decide) (by decide) (by decide)

/-! ### Chart Source Adapter claims -/

/-- Every record produced by the entry extractor carries the chart-level
date and region it was given, and a streams count exactly when the
ranking-metric type is "STREAMS". -/
theorem extract_entry_fields (cd rg : Option String) (e : Entry)
    (r : ChartRecord) (h : extract_entry cd rg e = some r) :
    r.region = rg ∧ r.date = cd
      ∧ r.streams = (if ranking_metric_type e = some "STREAMS" then
          ranking_metric_value e else none) := by
  unfold extract_entry at h
  split at h
  · simp at h
  · obtain rfl : _ = r := by injection h
    exact ⟨rfl, rfl, rfl⟩

/-- C9: the Streams field of an extracted record is numeric only when the
entry's ranking-metric type is exactly "STREAMS"; for any other metric
type (e.g. "SAVES") or an absent ranking metric it is null. -/
theorem streams_only_for_streams_metric (cd rg : Option String) (e : Entry)
    (r : ChartRecord) (h : extract_entry cd rg e = some r) :
    (r.streams ≠ none → ranking_metric_type e = some "STREAMS")
    ∧ (ranking_metric_type e ≠ some "STREAMS" → r.streams = none) := by
  have hs := (extract_entry_fields cd rg e r h).2.2
  constructor
  · intro hne
    by_contra hty
    rw [if_neg hty] at hs
    exact hne hs
  · intro hty
    rw [if_neg hty] at hs
    exact hs

/-- C9 witness: an entry ranked by "SAVES" extracts to a record whose
Streams field is null, never the saves count. -/
theorem streams_only_for_streams_metric_witness :
    ∃ r, extract_entry (some "2020-01-01") (some "us") savesEntry = some r
      ∧ r.streams = none :=
  ⟨_, rfl, (streams_only_for_streams_metric (some "2020-01-01") (some "us")
    savesEntry _ rfl).2 (by decide)⟩

/-- C2 counterexample: the response metadata region is available (country
"BR", lowercased "br"), yet the record produced for requested region
"us" carries "us" — the requested region takes precedence over the
metadata, refuting metadata-first precedence. -/
theorem requested_region_overrides_metadata_cx :
    region_of metadataRegionPayload none = some "br"
    ∧ (extract_entries metadataRegionPayload (some "us")).map
        (fun r => r.region) = [some "us"]
    ∧ (some "us" : Option String) ≠ some "br" :=
  ⟨rfl, rfl, by decide⟩

/-- C2 amended: each produced record's region is the region that was
requested whenever one was requested (the structured fetch always
requests one); the lowercased metadata country is used only when no
region override is given; the record's date always comes from the
chart-level response metadata (displayChart date, falling back to the
top-level date). -/
theorem record_region_from_requested_override (payload : Payload)
    (reg : String) (hreg : reg ≠ "") :
    (∀ r ∈ extract_entries payload (some reg),
      r.region = some reg ∧ r.date = chart_date_of payload)
    ∧ ∀ r ∈ extract_entries payload none,
      r.region = region_of payload none ∧ r.date = chart_date_of payload := by
  have hro : region_of payload (some reg) = some reg := by
    unfold region_of pyTruthy
    rw [if_pos (by simp [hreg])]
  constructor
  · intro r hr
    obtain ⟨e, _, hee⟩ := List.mem_filterMap.mp hr
    have hf := extract_entry_fields _ _ _ _ hee
    rw [hro] at hf
    exact ⟨hf.1, hf.2.1⟩
  · intro r hr
    obtain ⟨e, _, hee⟩ := List.mem_filterMap.mp hr
    have hf := extract_entry_fields _ _ _ _ hee
    exact ⟨hf.1, hf.2.1⟩

/-- C2 amended witness: for the payload with metadata country "BR" and
requested region "us", the extracted record carries region "us" and the
chart-level metadata date. -/
theorem record_region_from_requested_override_witness :
    sampleRecordUS.region = some "us"
      ∧ sampleRecordUS.date = chart_date_of metadataRegionPayload :=
  (record_region_from_requested_override metadataRegionPayload "us"
    (by decide)).1 sampleRecordUS (by decide)

/-! ### Aggregation claims -/

/-- C1 counterexample: with a valid token, the pair (2020-01-01, us)
failing upstream with HTTP 500 makes the whole batch fail with that
upstream error, even though the remaining pair (2020-01-02, us) would
have produced records — the failed pair is not treated as a
data-absence miss and the sibling pair's data is not returned. -/
theorem fetch_failure_not_treated_as_miss :
    fetch_chart (some "tok") c1Net (Family.top200, Cadence.daily)
        ["2020-01-01", "2020-01-02"] ["us"] = .error (.upstreamError 500)
    ∧ extract_entries
        (c1Net (normalize_alias (Family.top200, Cadence.daily) "us")
          "2020-01-02").body (some "us") ≠ [] :=
  ⟨rfl, by decide⟩

/-- An `Except` that reports ok holds an ok value. -/
theorem except_ok_of_isOk {ε α : Type} {x : Except ε α} (h : x.isOk = true) :
    ∃ a, x = .ok a := by
  cases x with
  | error e => simp [Except.isOk, Except.toBool] at h
  | ok a => exact ⟨a, rfl⟩

/-- If every region before `r` fetches successfully at date `d` and the
fetch for `r` fails, the inner loop fails with that error, whatever
records and misses had been accumulated. -/
theorem fetch_inner_aborts (token : Option String)
    (net : String → String → NetResponse) (chart_key : ChartKey)
    (d r : String) (rs2 : List String) (e : ApiError)
    (h : fetch_chart_entries token net (normalize_alias chart_key r) d = .error e) :
    ∀ (rs1 : List String), (∀ y ∈ rs1,
      (fetch_chart_entries token net (normalize_alias chart_key y) d).isOk = true) →
    ∀ acc, fetch_inner token net chart_key d (rs1 ++ r :: rs2) acc = .error e := by
  intro rs1
  induction rs1 with
  | nil =>
    intro _ acc
    simp only [List.nil_append, fetch_inner, fetch_pair, h]
  | cons y ys ih =>
    intro hok acc
    obtain ⟨p, hp⟩ := except_ok_of_isOk (hok y (List.mem_cons_self y ys))
    rw [List.cons_append]
    simp only [fetch_inner, fetch_pair, hp]
    have hok2 : ∀ z ∈ ys,
        (fetch_chart_entries token net (normalize_alias chart_key z) d).isOk = true :=
      fun z hz => hok z (List.mem_cons_of_mem y hz)
    by_cases hemp : (extract_entries p (some y)).isEmpty = true
    · rw [if_pos hemp]
      exact ih hok2 _
    · rw [if_neg hemp]
      exact ih hok2 _

/-- If every region fetches successfully at date `x`, the inner loop
completes with some accumulated state. -/
theorem fetch_inner_exists_ok (token : Option String)
    (net : String → String → NetResponse) (chart_key : ChartKey)
    (x : String) (rs : List String)
    (hok : ∀ y ∈ rs,
      (fetch_chart_entries token net (normalize_alias chart_key y) x).isOk = true) :
    ∀ acc, ∃ acc2, fetch_inner token net chart_key x rs acc = .ok acc2 := by
  revert hok
  induction rs with
  | nil =>
    intro _ acc
    exact ⟨acc, rfl⟩
  | cons y ys ih =>
    intro hok acc
    obtain ⟨p, hp⟩ := except_ok_of_isOk (hok y (List.mem_cons_self y ys))
    simp only [fetch_inner, fetch_pair, hp]
    have hok2 : ∀ z ∈ ys,
        (fetch_chart_entries token net (normalize_alias chart_key z) x).isOk = true :=
      fun z hz => hok z (List.mem_cons_of_mem y hz)
    by_cases hemp : (extract_entries p (some y)).isEmpty = true
    · rw [if_pos hemp]
      exact ih hok2 _
    · rw [if_neg hemp]
      exact ih hok2 _

/-- If every pair of the dates before `d` fetches successfully and the
inner loop at `d` fails, the outer loop fails with that error, whatever
had been accumulated. -/
theorem fetch_outer_aborts (token : Option String)
    (net : String → String → NetResponse) (chart_key : ChartKey)
    (regions : List String) (d : String) (ds2 : List String) (e : ApiError)
    (hfail : ∀ acc, fetch_inner token net chart_key d regions acc = .error e) :
    ∀ (ds1 : List String), (∀ x ∈ ds1, ∀ y ∈ regions,
      (fetch_chart_entries token net (normalize_alias chart_key y) x).isOk = true) →
    ∀ acc, fetch_outer token net chart_key regions (ds1 ++ d :: ds2) acc = .error e := by
  intro ds1
  induction ds1 with
  | nil =>
    intro _ acc
    simp only [List.nil_append, fetch_outer, hfail acc]
  | cons x xs ih =>
    intro hok acc
    obtain ⟨acc2, hacc2⟩ := fetch_inner_exists_ok token net chart_key x regions
      (hok x (List.mem_cons_self x xs)) acc
    rw [List.cons_append]
    simp only [fetch_outer, hacc2]
    exact ih (fun z hz => hok z (List.mem_cons_of_mem x hz)) acc2

/-- C1 amended: a fetch that fails with UpstreamAuthError or
UpstreamError for any (date, region) pair of the aggregation loop — the
pairs before it in loop order having fetched successfully, as in every
run that reaches the pair — aborts the whole batch: the error
propagates unchanged out of `fetch_chart` (there is no try/except
around the per-pair fetch), the failing pair is not recorded as a miss,
the remaining pairs are not attempted, and the records and misses
already accumulated from the earlier pairs are discarded. -/
theorem fetch_failure_aborts_batch (token : Option String)
    (net : String → String → NetResponse) (chart_key : ChartKey)
    (ds1 ds2 rs1 rs2 : List String) (d r : String) (e : ApiError)
    (hpre : ∀ x ∈ ds1, ∀ y ∈ rs1 ++ r :: rs2,
      (fetch_chart_entries token net (normalize_alias chart_key y) x).isOk = true)
    (hrow : ∀ y ∈ rs1,
      (fetch_chart_entries token net (normalize_alias chart_key y) d).isOk = true)
    (h : fetch_chart_entries token net (normalize_alias chart_key r) d = .error e) :
    fetch_chart token net chart_key (ds1 ++ d :: ds2) (rs1 ++ r :: rs2) = .error e := by
  have hinner := fetch_inner_aborts token net chart_key d r rs2 e h rs1 hrow
  have houter := fetch_outer_aborts token net chart_key (rs1 ++ r :: rs2) d ds2 e
    hinner ds1 hpre ([], [])
  unfold fetch_chart
  rw [houter]

/-- C1 amended witness: a mid-loop failure — the fourth pair
(2020-01-01, us) of a two-date, two-region batch returns HTTP 500 after
the three earlier pairs succeeded and accumulated records — aborts the
whole request with that upstream error, discarding the accumulated
records. -/
theorem fetch_failure_aborts_batch_witness :
    fetch_chart (some "tok") c1MidNet (Family.top200, Cadence.daily)
      ["2020-01-02", "2020-01-01"] ["gb", "us"] = .error (.upstreamError 500) :=
  fetch_failure_aborts_batch (some "tok") c1MidNet (Family.top200, Cadence.daily)
    ["2020-01-02"] [] ["gb"] [] "2020-01-01" "us" (.upstreamError 500)
    (by decide) (by decide) rfl

/-- Splitting a character list at a separator that occurs in neither
left part is unambiguous. -/
theorem append_slash_cancel :
    ∀ (a : List Char) {b c e : List Char}, '/' ∉ a → '/' ∉ b →
      a ++ '/' :: c = b ++ '/' :: e → a = b ∧ c = e := by
  intro a
  induction a with
  | nil =>
    intro b c e _ hb h
    cases b with
    | nil =>
      simp only [List.nil_append, List.cons.injEq] at h
      exact ⟨rfl, h.2⟩
    | cons y ys =>
      simp only [List.nil_append, List.cons_append, List.cons.injEq] at h
      exact absurd (h.1 ▸ List.mem_cons_self y ys) hb
  | cons x xs ih =>
    intro b c e ha hb h
    cases b with
    | nil =>
      simp only [List.nil_append, List.cons_append, List.cons.injEq] at h
      exact absurd (h.1.symm ▸ List.mem_cons_self x xs) ha
    | cons y ys =>
      simp only [List.cons_append, List.cons.injEq] at h
      obtain ⟨rfl, h2⟩ := h
      have hxs : '/' ∉ xs := fun hm => ha (List.mem_cons_of_mem _ hm)
      have hys : '/' ∉ ys := fun hm => hb (List.mem_cons_of_mem _ hm)
      obtain ⟨rfl, rfl⟩ := ih hxs hys h2
      exact ⟨rfl, rfl⟩

/-- A miss label `date ++ "/" ++ region` determines its date and region
as long as the dates themselves contain no slash. -/
theorem pair_label_inj {d1 r1 d2 r2 : String}
    (h1 : '/' ∉ d1.data) (h2 : '/' ∉ d2.data)
    (h : d1 ++ "/" ++ r1 = d2 ++ "/" ++ r2) : d1 = d2 ∧ r1 = r2 := by
  rw [String.ext_iff, String.data_append, String.data_append,
    String.data_append, String.data_append] at h
  have hs : ("/" : String).data = ['/'] := rfl
  rw [hs, List.append_assoc, List.append_assoc, List.singleton_append,
    List.singleton_append] at h
  obtain ⟨hd, hr⟩ := append_slash_cancel _ h1 h2 h
  exact ⟨String.ext hd, String.ext hr⟩

/-- The full list of miss labels over slash-free, duplicate-free dates
and duplicate-free regions has no duplicates. -/
theorem pair_labels_nodup (dates regions : List String)
    (hnd : dates.Nodup) (hnr : regions.Nodup)
    (hsd : ∀ d ∈ dates, '/' ∉ d.data) :
    (dates.flatMap (fun d => regions.map (fun r => d ++ "/" ++ r))).Nodup := by
  rw [List.nodup_flatMap]
  constructor
  · intro d _
    refine hnr.map ?_
    intro r1 r2 hr
    have hdata := congrArg String.data hr
    rw [String.data_append, String.data_append] at hdata
    exact String.ext (List.append_cancel_left hdata)
  · refine hnd.imp_of_mem ?_
    intro d1 d2 hm1 hm2 hne x hx1 hx2
    obtain ⟨r1, _, rfl⟩ := List.mem_map.mp hx1
    obtain ⟨r2, _, heq⟩ := List.mem_map.mp hx2
    exact hne (pair_label_inj (hsd d1 hm1) (hsd d2 hm2) heq.symm).1

/-- With a truthy token, a fetch whose upstream status is below 400
succeeds with the response body. -/
theorem fetch_chart_entries_ok (t : String) (ht : t ≠ "")
    (net : String → String → NetResponse) (a d : String)
    (hst : (net a d).status < 400) :
    fetch_chart_entries (some t) net a d = .ok (net a d).body := by
  have hrt : require_token (some t) = .ok t := by
    simp only [require_token]
    rw [if_neg ht]
  unfold fetch_chart_entries
  simp only [hrt]
  rw [if_neg (by omega), if_neg (by omega)]

/-- The inner (region) loop over fault-free fetches accumulates, in
order, the extracted entries of the non-miss pairs and the labels of the
miss pairs. -/
theorem fetch_inner_ok (t : String) (ht : t ≠ "")
    (net : String → String → NetResponse) (chart_key : ChartKey) (d : String)
    (rs : List String)
    (hok : ∀ r ∈ rs, (net (normalize_alias chart_key r) d).status < 400)
    (acc : List ChartRecord × List String) :
    fetch_inner (some t) net chart_key d rs acc = .ok
      (acc.1 ++ rs.flatMap (fun r =>
        extract_entries (net (normalize_alias chart_key r) d).body (some r)),
       acc.2 ++ (rs.filter (fun r =>
        (extract_entries (net (normalize_alias chart_key r) d).body
          (some r)).isEmpty)).map (fun r => d ++ "/" ++ r)) := by
  revert hok acc
  induction rs with
  | nil =>
    intro _ acc
    simp [fetch_inner]
  | cons r rs ih =>
    intro hok acc
    have hok2 : ∀ x ∈ rs, (net (normalize_alias chart_key x) d).status < 400 :=
      fun x hx => hok x (List.mem_cons_of_mem r hx)
    have hfe := fetch_chart_entries_ok t ht net (normalize_alias chart_key r) d
      (hok r (List.mem_cons_self r rs))
    simp only [fetch_inner, fetch_pair, hfe]
    by_cases hemp :
        (extract_entries (net (normalize_alias chart_key r) d).body
          (some r)).isEmpty = true
    · rw [if_pos hemp]
      show fetch_inner (some t) net chart_key d rs
        (acc.1, acc.2 ++ [d ++ "/" ++ r]) = _
      rw [ih hok2]
      have hE := List.isEmpty_iff.mp hemp
      rw [List.flatMap_cons, @List.filter_cons_of_pos _
        (fun x => (extract_entries (net (normalize_alias chart_key x) d).body
          (some x)).isEmpty) r rs hemp, hE]
      simp
    · rw [if_neg hemp]
      show fetch_inner (some t) net chart_key d rs
        (acc.1 ++ extract_entries (net (normalize_alias chart_key r) d).body
          (some r), acc.2) = _
      rw [ih hok2]
      rw [List.flatMap_cons, @List.filter_cons_of_neg _
        (fun x => (extract_entries (net (normalize_alias chart_key x) d).body
          (some x)).isEmpty) r rs hemp]
      simp

/-- The outer (date) loop over fault-free fetches accumulates the per-date
results in order. -/
theorem fetch_outer_ok (t : String) (ht : t ≠ "")
    (net : String → String → NetResponse) (chart_key : ChartKey)
    (regions : List String) (ds : List String)
    (hok : ∀ d ∈ ds, ∀ r ∈ regions,
      (net (normalize_alias chart_key r) d).status < 400)
    (acc : List ChartRecord × List String) :
    fetch_outer (some t) net chart_key regions ds acc = .ok
      (acc.1 ++ ds.flatMap (fun d => regions.flatMap (fun r =>
        extract_entries (net (normalize_alias chart_key r) d).body (some r))),
       acc.2 ++ ds.flatMap (fun d => (regions.filter (fun r =>
        (extract_entries (net (normalize_alias chart_key r) d).body
          (some r)).isEmpty)).map (fun r => d ++ "/" ++ r))) := by
  revert hok acc
  induction ds with
  | nil =>
    intro _ acc
    simp [fetch_outer]
  | cons d ds ih =>
    intro hok acc
    have hok2 : ∀ x ∈ ds, ∀ r ∈ regions,
        (net (normalize_alias chart_key r) x).status < 400 :=
      fun x hx => hok x (List.mem_cons_of_mem d hx)
    simp only [fetch_outer]
    rw [fetch_inner_ok t ht net chart_key d regions
      (hok d (List.mem_cons_self d ds)) acc]
    show fetch_outer (some t) net chart_key regions ds
      (acc.1 ++ regions.flatMap (fun r =>
        extract_entries (net (normalize_alias chart_key r) d).body (some r)),
       acc.2 ++ (regions.filter (fun r =>
        (extract_entries (net (normalize_alias chart_key r) d).body
          (some r)).isEmpty)).map (fun r => d ++ "/" ++ r)) = _
    rw [ih hok2]
    rw [List.flatMap_cons, List.flatMap_cons]
    simp

/-- Congruence for flatMap under a pointwise equality on members. -/
theorem flatMap_congr_mem {α β : Type} {l : List α} {f g : α → List β}
    (h : ∀ a ∈ l, f a = g a) : l.flatMap f = l.flatMap g := by
  induction l with
  | nil => rfl
  | cons a l ih =>
    rw [List.flatMap_cons, List.flatMap_cons, h a (List.mem_cons_self a l),
      ih (fun x hx => h x (List.mem_cons_of_mem a hx))]

/-- `fetch_chart` in terms of the final accumulator of its loop. -/
theorem fetch_chart_of_outer_ok {token : Option String}
    {net : String → String → NetResponse} {chart_key : ChartKey}
    {dates regions : List String} {output : List ChartRecord}
    {misses : List String}
    (h : fetch_outer token net chart_key regions dates ([], []) =
      .ok (output, misses)) :
    fetch_chart token net chart_key dates regions =
      if output.isEmpty then .error (.noData misses) else .ok output := by
  unfold fetch_chart
  rw [h]

/-- C3: over fault-free fetches (token present, all statuses below 400)
for duplicate-free dates and regions with slash-free date labels — if
every (date, region) pair extracts zero records, the batch fails with
the no-data error whose carried miss list is exactly the label
`date ++ "/" ++ region` of every pair in loop order, each appearing
exactly once; if at least one pair extracts records, the batch succeeds
and returns exactly the records accumulated from the non-miss pairs in
loop order (missed pairs contribute nothing). -/
theorem aggregation_miss_semantics (t : String) (ht : t ≠ "")
    (net : String → String → NetResponse) (chart_key : ChartKey)
    (dates regions : List String)
    (hok : ∀ d ∈ dates, ∀ r ∈ regions,
      (net (normalize_alias chart_key r) d).status < 400)
    (hnd : dates.Nodup) (hnr : regions.Nodup)
    (hsd : ∀ d ∈ dates, '/' ∉ d.data) :
    ((∀ d ∈ dates, ∀ r ∈ regions,
        extract_entries (net (normalize_alias chart_key r) d).body (some r) = []) →
      fetch_chart (some t) net chart_key dates regions =
        .error (.noData (dates.flatMap (fun d =>
          regions.map (fun r => d ++ "/" ++ r))))
      ∧ ∀ d ∈ dates, ∀ r ∈ regions,
          (dates.flatMap (fun d =>
            regions.map (fun r => d ++ "/" ++ r))).count (d ++ "/" ++ r) = 1)
    ∧ ((∃ d ∈ dates, ∃ r ∈ regions,
        extract_entries (net (normalize_alias chart_key r) d).body (some r) ≠ []) →
      fetch_chart (some t) net chart_key dates regions =
        .ok (dates.flatMap (fun d => regions.flatMap (fun r =>
          extract_entries (net (normalize_alias chart_key r) d).body (some r))))) := by
  have houter := fetch_outer_ok t ht net chart_key regions dates hok ([], [])
  simp only [List.nil_append] at houter
  constructor
  · intro hall
    have hflat : dates.flatMap (fun d => regions.flatMap (fun r =>
        extract_entries (net (normalize_alias chart_key r) d).body (some r))) = [] := by
      rw [List.flatMap_eq_nil_iff]
      intro d hd
      rw [List.flatMap_eq_nil_iff]
      intro r hr
      exact hall d hd r hr
    have hmiss : dates.flatMap (fun d => (regions.filter (fun r =>
        (extract_entries (net (normalize_alias chart_key r) d).body
          (some r)).isEmpty)).map (fun r => d ++ "/" ++ r)) =
        dates.flatMap (fun d => regions.map (fun r => d ++ "/" ++ r)) := by
      refine flatMap_congr_mem ?_
      intro d hd
      have : regions.filter (fun r =>
          (extract_entries (net (normalize_alias chart_key r) d).body
            (some r)).isEmpty) = regions := by
        refine List.filter_eq_self.mpr ?_
        intro r hr
        simp [hall d hd r hr]
      rw [this]
    rw [hflat, hmiss] at houter
    constructor
    · rw [fetch_chart_of_outer_ok houter]
      rfl
    · intro d hd r hr
      exact List.count_eq_one_of_mem (pair_labels_nodup dates regions hnd hnr hsd)
        (List.mem_flatMap.mpr ⟨d, hd, List.mem_map_of_mem _ hr⟩)
  · rintro ⟨d, hd, r, hr, hne⟩
    rw [fetch_chart_of_outer_ok houter]
    rw [if_neg]
    rw [Bool.not_eq_true, List.isEmpty_eq_false]
    intro hnil
    obtain ⟨x, hx⟩ := List.exists_mem_of_ne_nil _ hne
    have : x ∈ dates.flatMap (fun d => regions.flatMap (fun r =>
        extract_entries (net (normalize_alias chart_key r) d).body (some r))) :=
      List.mem_flatMap.mpr ⟨d, hd, List.mem_flatMap.mpr ⟨r, hr, hx⟩⟩
    rw [hnil] at this
    cases this

/-- C3 witness: with one date and two regions both missing, the batch
fails listing both pair labels once each; with a region that has data,
the batch succeeds with exactly the extracted records. -/
theorem aggregation_miss_semantics_witness :
    (fetch_chart (some "tok") missNet (Family.top200, Cadence.daily)
        ["2020-01-01"] ["us", "gb"] =
      .error (.noData (["2020-01-01"].flatMap (fun d =>
        ["us", "gb"].map (fun r => d ++ "/" ++ r)))))
    ∧ (["2020-01-01"].flatMap (fun d =>
        ["us", "gb"].map (fun r => d ++ "/" ++ r))).count
          ("2020-01-01" ++ "/" ++ "us") = 1
    ∧ fetch_chart (some "tok") hitNet (Family.top200, Cadence.daily)
        ["2020-01-01"] ["us"] =
      .ok (["2020-01-01"].flatMap (fun d => ["us"].flatMap (fun r =>
        extract_entries (hitNet (normalize_alias (Family.top200, Cadence.daily) r)
          d).body (some r)))) := by
  refine ⟨?_, ?_, ?_⟩
  · exact ((aggregation_miss_semantics "tok" (by decide) missNet
      (Family.top200, Cadence.daily) ["2020-01-01"] ["us", "gb"]
      (by decide) (by decide) (by decide) (by decide)).1 (by decide)).1
  · exact ((aggregation_miss_semantics "tok" (by decide) missNet
      (Family.top200, Cadence.daily) ["2020-01-01"] ["us", "gb"]
      (by decide) (by decide) (by decide) (by decide)).1 (by decide)).2
      "2020-01-01" (by decide) "us" (by decide)
  · exact (aggregation_miss_semantics "tok" (by decide) hitNet
      (Family.top200, Cadence.daily) ["2020-01-01"] ["us"]
      (by decide) (by decide) (by decide) (by decide)).2
      ⟨"2020-01-01", by decide, "us", by decide, by decide⟩
